import Mathlib

/-!
Verification of `releasetool/commands/tag/ruby.py`.

Strings are modelled as `List Char`.  The Python regular-expression calls in
the source are embedded as executable Lean functions whose semantics follow
Python's `re` module (without `re.MULTILINE`/`re.DOTALL` unless the source
passes those flags): in particular `.` matches any character except a newline,
`$` matches at the end of the string or just before one final trailing
newline, and `re.search` with `re.MULTILINE` lets `^` match at the start of
the string and right after any newline.
-/

/-- `\d` character class (ASCII digits, as matched on the source's inputs). -/
def isDigit (c : Char) : Bool := '0' ≤ c && c ≤ '9'

/-- The `[a-z-]` character class of the branch/tag regular expressions. -/
def isLowerOrHyphen (c : Char) : Bool := ('a' ≤ c && c ≤ 'z') || c = '-'

/-- The `\s` character class, restricted to ASCII (the inputs the source
matches are ASCII). -/
def isPySpace (c : Char) : Bool :=
  c = ' ' || c = '\t' || c = '\n' || c = '\r' || c = '\x0b' || c = '\x0c'

/-- One character of Python's `str.lower`, restricted to ASCII. -/
def pyLowerChar (c : Char) : Char :=
  if 'A' ≤ c && c ≤ 'Z' then Char.ofNat (c.toNat + 32) else c

/-- Python's `str.lower`, restricted to ASCII. -/
def pyLower (s : List Char) : List Char := s.map pyLowerChar

/-- Python's substring test `needle in hay` on strings. -/
def isSubstr (needle : List Char) : List Char → Bool
  | [] => needle.isPrefixOf []
  | c :: t => needle.isPrefixOf (c :: t) || isSubstr needle t

/-- Python's `str.strip()` (whitespace strip on both ends, ASCII model). -/
def pyStrip (s : List Char) : List Char :=
  ((s.dropWhile isPySpace).reverse.dropWhile isPySpace).reverse

/-- Python list indexing `xs[i]`: negative indices count from the end,
`none` models an `IndexError`. -/
def pyIndex {α : Type} (xs : List α) (i : Int) : Option α :=
  if i < 0 then
    if (xs.length : Int) + i < 0 then none else xs.get? ((xs.length : Int) + i).toNat
  else xs.get? i.toNat

/-- A pull request record, keeping the fields the source reads:
`pull["title"]`, `pull["number"]`, `pull["head"]["ref"]` and
`pull["merge_commit_sha"]`. -/
structure PullRequest where
  title : List Char
  number : Int
  head_ref : List Char
  merge_commit_sha : List Char
deriving DecidableEq

/-- The candidate list built by `determine_release_pr`:
`[pull for pull in pulls if "release" in pull["title"].lower()][:30]`. -/
def determine_release_pr_candidates (pulls : List PullRequest) : List PullRequest :=
  (pulls.filter fun pull => isSubstr "release".data (pyLower pull.title)).take 30

/-- `determine_release_pr`: the user picks `pull_idx` and the source stores
`pulls[pull_idx - 1]` (Python indexing); `none` models the `IndexError`. -/
def determine_release_pr (pulls : List PullRequest) (pull_idx : Int) : Option PullRequest :=
  pyIndex (determine_release_pr_candidates pulls) (pull_idx - 1)

/-- The tag-step fields of the mutable `Context` record
(`package_name`, `release_version`, `release_tag`), each `None` initially. -/
structure Context where
  package_name : Option (List Char) := none
  release_version : Option (List Char) := none
  release_tag : Option (List Char) := none
deriving DecidableEq

/-- Tail of `re.match(r"^release-([a-z-]+)-v(\d\.\d.\d)$", ...)` after the
greedy group: the literal `-v` followed by the five version characters.  The
first separator `\.` is a literal dot; the second separator is the UNESCAPED
`.`, matching any character except a newline. -/
def branchTail : List Char → Option (List Char)
  | ['-', 'v', d1, p, d2, c, d3] =>
    if p = '.' && isDigit d1 && isDigit d2 && isDigit d3 && !(c = '\n')
    then some [d1, p, d2, c, d3] else none
  | _ => none

/-- The part of the branch regular expression after the literal `release-`
and the `$` adjustment: greedy `([a-z-]+)`, whose extent is forced because
the suffix demanded after it (7 characters up to the match end) has fixed
length, then the `-v(...)` tail. -/
def matchBranchCore (core : List Char) : Option (List Char × List Char) :=
  if 8 ≤ core.length then
    if (core.take (core.length - 7)).all isLowerOrHyphen then
      (branchTail (core.drop (core.length - 7))).map
        fun v => (core.take (core.length - 7), v)
    else none
  else none

/-- `re.match(r"^release-([a-z-]+)-v(\d\.\d.\d)$", s)` with Python semantics:
`$` matches at the end or just before one final trailing newline (no other
piece of the pattern can consume a newline, so at most the final one can be
dropped).  Returns `(group 1, group 2)`. -/
def matchReleaseBranch (s : List Char) : Option (List Char × List Char) :=
  if s.take 8 = "release-".data then
    matchBranchCore
      (if (s.drop 8).getLast? = some '\n' then (s.drop 8).dropLast else s.drop 8)
  else none

/-- Tail of `re.match(r"^([a-z-]+)\/v(\d.\d.\d)$", ...)` after the greedy
group: the literal `/v` followed by the five version characters.  BOTH dots
of the version pattern are unescaped, matching any non-newline character. -/
def tagTail : List Char → Option (List Char)
  | ['/', 'v', d1, c1, d2, c2, d3] =>
    if isDigit d1 && isDigit d2 && isDigit d3 && !(c1 = '\n') && !(c2 = '\n')
    then some [d1, c1, d2, c2, d3] else none
  | _ => none

/-- The tag regular expression against the `$`-adjusted input: greedy
`([a-z-]+)` with forced extent, then the `\/v(...)` tail. -/
def matchTagCore (core : List Char) : Option (List Char × List Char) :=
  if 8 ≤ core.length then
    if (core.take (core.length - 7)).all isLowerOrHyphen then
      (tagTail (core.drop (core.length - 7))).map
        fun v => (core.take (core.length - 7), v)
    else none
  else none

/-- `re.match(r"^([a-z-]+)\/v(\d.\d.\d)$", s)` with Python semantics (same
forced-split argument as for `matchReleaseBranch`). -/
def matchTagPattern (s : List Char) : Option (List Char × List Char) :=
  matchTagCore (if s.getLast? = some '\n' then s.dropLast else s)

/-- `determine_package_name_and_version`: matches the stored release tag
against `^([a-z-]+)\/v(\d.\d.\d)$` and stores the two groups.  `Except.error`
models the uncaught exception (`AttributeError` when the match is `None`,
raised before either assignment happens), carrying the context state at the
moment of the raise. -/
def determine_package_name_and_version (ctx : Context) : Except Context Context :=
  match ctx.release_tag with
  | none => .error ctx
  | some t =>
    match matchTagPattern t with
    | some (pkg, ver) =>
      .ok { ctx with package_name := some pkg, release_version := some ver }
    | none => .error ctx

/-- `determine_release_tag`: on a head-ref match, store the groups and compose
`f"{package_name}/v{release_version}"`; otherwise store the user-typed tag
(`promptTag`, the line returned by `click.prompt`) and derive name/version
from it via `determine_package_name_and_version`. -/
def determine_release_tag (headRef promptTag : List Char) (ctx : Context) :
    Except Context Context :=
  match matchReleaseBranch headRef with
  | some (pkg, ver) =>
    .ok { ctx with package_name := some pkg, release_version := some ver,
                   release_tag := some (pkg ++ '/' :: 'v' :: ver) }
  | none =>
    determine_package_name_and_version { ctx with release_tag := some promptTag }

/-- Match a literal regex fragment; returns the remaining input. -/
def matchLit : List Char → List Char → Option (List Char)
  | [], s => some s
  | l :: ls, c :: cs => if c = l then matchLit ls cs else none
  | _ :: _, [] => none

/-- Match the interpolated `{ctx.release_version}` fragment of the changelog
pattern: each character of the version string is a literal in the pattern,
except `.` which (the version being interpolated unescaped, and the pattern
compiled with `re.DOTALL`) matches ANY single character. -/
def matchVerPat : List Char → List Char → Option (List Char)
  | [], s => some s
  | '.' :: vs, _ :: cs => matchVerPat vs cs
  | v :: vs, c :: cs => if c = v then matchVerPat vs cs else none
  | _ :: _, [] => none

/-- Match `n` consecutive `\d`. -/
def matchDigits : Nat → List Char → Option (List Char)
  | 0, s => some s
  | n + 1, c :: cs => if isDigit c then matchDigits n cs else none
  | _ + 1, [] => none

/-- Match the changelog header fragment
`### {version} \/ \d\d\d\d-\d\d-\d\d\n` at the front of `s`; returns the
remaining input (where the `(?P<notes>.+?)` group starts). -/
def matchHeader (ver s : List Char) : Option (List Char) :=
  (matchLit "### ".data s).bind fun s1 =>
  (matchVerPat ver s1).bind fun s2 =>
  (matchLit " / ".data s2).bind fun s3 =>
  (matchDigits 4 s3).bind fun s4 =>
  (matchLit "-".data s4).bind fun s5 =>
  (matchDigits 2 s5).bind fun s6 =>
  (matchLit "-".data s6).bind fun s7 =>
  (matchDigits 2 s7).bind fun s8 =>
  matchLit "\n".data s8

/-- Does the terminator alternative `\n###\s` match at the front of `r`? -/
def isTerm : List Char → Bool
  | '\n' :: '#' :: '#' :: '#' :: c :: _ => isPySpace c
  | _ => false

/-- The lazy `.+?` body after its forced first character: consume characters
until the first position where `\n###\s` matches, or the end of the string
(where the `\Z` alternative matches). -/
def takeBodyAux : List Char → List Char
  | [] => []
  | c :: rest => if isTerm (c :: rest) then [] else c :: takeBodyAux rest

/-- Attempt the whole changelog pattern at the front of `s`: header, then a
nonempty lazy body closed by `\n###\s` or `\Z`.  Returns the `notes` group. -/
def headerHit (ver s : List Char) : Option (List Char) :=
  match matchHeader ver s with
  | some (b :: r) => some (b :: takeBodyAux r)
  | _ => none

/-- `re.search` with `re.MULTILINE`: try the pattern at every position where
`^` matches (`ls` records whether the current position starts a line),
left to right. -/
def searchNotes (ver : List Char) : Bool → List Char → Option (List Char)
  | ls, [] => if ls then headerHit ver [] else none
  | ls, c :: rest =>
    match (if ls then headerHit ver (c :: rest) else none) with
    | some notes => some notes
    | none => searchNotes ver (c = '\n') rest

/-- `get_release_notes`: search the changelog for the release-version section
and store its stripped body, or the empty string when there is no match. -/
def get_release_notes (changelog ver : List Char) : List Char :=
  match searchNotes ver true changelog with
  | some notes => pyStrip notes
  | none => []

/-- Position `i` of `s`, with incoming line-start flag `ls`, starts a line
(for `^` under `re.MULTILINE`). -/
def lineStartAtAux (ls : Bool) : List Char → Nat → Bool
  | _, 0 => ls
  | [], _ + 1 => false
  | c :: rest, i + 1 => lineStartAtAux (c = '\n') rest i

/-- Position `i` of `s` is the start of a line: `i = 0` or `s` has a newline
at position `i - 1`. -/
def lineStartAt (s : List Char) (i : Nat) : Bool := lineStartAtAux true s i

/-- Calls `create_release` makes on the source-hosting client. -/
inductive GithubCall where
  | createRelease (repository tag_name target_committish name body : List Char)
  | createPullRequestComment (repository : List Char) (pr_number : Int)
      (body : List Char)
deriving DecidableEq

/-- `create_release`: one `create_release` API call (tag_name is the BARE
version string) followed by one PR comment containing the created release's
`html_url`. -/
def create_release (repo pkg ver notes sha : List Char) (prNumber : Int)
    (html_url : List Char) : List GithubCall :=
  [ .createRelease repo ver sha
      ("Release ".data ++ pkg ++ ' ' :: ver) notes,
    .createPullRequestComment repo prNumber
      ("Release is at ".data ++ html_url) ]

/-- A CircleCI build record (the fields the source reads). -/
structure Build where
  build_num : Nat
  build_url : List Char
deriving DecidableEq

/-- Observable actions of `wait_on_circle`. -/
inductive CircleCall where
  | getLatestBuildByTag (tag : List Char)
  | getBuildStatusGenerator (build_num : Nat)
  | reportState (s : List Char)
  | reportNotFound (tag : List Char)
deriving DecidableEq

/-- `wait_on_circle`: look up the latest build for `f"{package_name}/v{release_version}"`;
if present, request the status generator and report each state; if absent,
report that no build was found and return. -/
def wait_on_circle (pkg ver : List Char)
    (getLatestBuildByTag : List Char → Option Build)
    (statusGen : Nat → List (List Char)) : List CircleCall :=
  let tag := pkg ++ '/' :: 'v' :: ver
  match getLatestBuildByTag tag with
  | some build =>
    .getLatestBuildByTag tag :: .getBuildStatusGenerator build.build_num ::
      (statusGen build.build_num).map .reportState
  | none => [.getLatestBuildByTag tag, .reportNotFound tag]

/-- SPEC-SIDE definition (for comparison only), following the spec's words
for step 2: head refs of the form `release-<package>-v<d>.<d>.<d>` with
`<package>` one or more lowercase letters/hyphens, three single-digit
components separated by literal dots, and nothing else. -/
def specClaimedBranchForm (s : List Char) : Bool :=
  (s.take 8 = "release-".data : Bool) &&
  (let core := s.drop 8
   8 ≤ core.length &&
   (core.take (core.length - 7)).all isLowerOrHyphen &&
   (match core.drop (core.length - 7) with
    | ['-', 'v', d1, '.', d2, '.', d3] => isDigit d1 && isDigit d2 && isDigit d3
    | _ => false))

lemma isPrefixOf_self (l : List Char) : l.isPrefixOf l = true := by
  induction l with
  | nil => rfl
  | cons c t ih => simp [List.isPrefixOf, ih]

lemma isSubstr_self (s : List Char) : isSubstr s s = true := by
  cases s with
  | nil => rfl
  | cons c t => simp [isSubstr, isPrefixOf_self]

lemma isSubstr_append_left (pre s : List Char) : isSubstr s (pre ++ s) = true := by
  induction pre with
  | nil => simpa using isSubstr_self s
  | cons c pre ih =>
    rw [List.cons_append]
    simp only [isSubstr, Bool.or_eq_true]
    exact Or.inr ih

/-- C1: the candidate list built by `determine_release_pr` holds exactly the
pull requests whose lowercased title contains "release", truncated to the
first 30 such matches, in the original source order (in particular it is an
order-preserving sublist of the input, of length at most 30, all of whose
members satisfy the title test). -/
theorem claim_C1_pr_candidates (pulls : List PullRequest) :
    determine_release_pr_candidates pulls
      = (pulls.filter fun p => isSubstr "release".data (pyLower p.title)).take 30
    ∧ (determine_release_pr_candidates pulls).Sublist pulls
    ∧ (determine_release_pr_candidates pulls).length ≤ 30
    ∧ (determine_release_pr_candidates pulls).all
        (fun p => isSubstr "release".data (pyLower p.title)) = true := by
  refine ⟨rfl, ?_, ?_, ?_⟩
  · exact (List.take_sublist _ _).trans (List.filter_sublist _)
  · simp [determine_release_pr_candidates, List.length_take]
  · rw [List.all_eq_true]
    intro p hp
    have hmem : p ∈ pulls.filter fun q => isSubstr "release".data (pyLower q.title) :=
      (List.take_sublist 30 _).mem hp
    exact (List.mem_filter.mp hmem).2

/-- C5: `create_release` issues exactly one `create_release` call whose
`tag_name` is the bare version string (not the combined `<package>/v<version>`
tag), whose target committish is the PR's merge commit, whose name is
`Release <package> <version>` and whose body is the release notes, followed by
exactly one comment on the originating pull request whose text contains the
created release's display URL. -/
theorem claim_C5_create_release_calls (repo pkg ver notes sha : List Char)
    (prNumber : Int) (html_url : List Char) :
    create_release repo pkg ver notes sha prNumber html_url
      = [ .createRelease repo ver sha ("Release ".data ++ pkg ++ ' ' :: ver) notes,
          .createPullRequestComment repo prNumber
            ("Release is at ".data ++ html_url) ]
    ∧ isSubstr html_url ("Release is at ".data ++ html_url) = true :=
  ⟨rfl, isSubstr_append_left _ _⟩

/-- C6: on a changelog holding the `1.2.3` section `Fixed a bug.` followed by
the next same-level header and further text, the release-notes step for
version `1.2.3` produces exactly `Fixed a bug.`. -/
theorem claim_C6_release_notes_section :
    get_release_notes
        "### 1.2.3 / 2020-01-01\nFixed a bug.\n### 1.2.2 / 2019-12-01\nOld fix.\n".data
        "1.2.3".data = "Fixed a bug.".data := by decide

/-- C8: when the CI client reports no build for `<package>/v<version>`, the
step performs exactly the lookup and the absence report — the status
generator is never requested — and returns normally. -/
theorem claim_C8_no_build_no_polling (pkg ver : List Char)
    (getLatest : List Char → Option Build) (statusGen : Nat → List (List Char))
    (h : getLatest (pkg ++ '/' :: 'v' :: ver) = none) :
    wait_on_circle pkg ver getLatest statusGen
      = [.getLatestBuildByTag (pkg ++ '/' :: 'v' :: ver),
         .reportNotFound (pkg ++ '/' :: 'v' :: ver)]
    ∧ (wait_on_circle pkg ver getLatest statusGen).all
        (fun c => match c with
          | .getBuildStatusGenerator _ => false
          | _ => true) = true := by
  simp [wait_on_circle, h]

theorem claim_C8_witness :
    wait_on_circle "foo".data "1.2.3".data (fun _ => none) (fun _ => [])
      = [.getLatestBuildByTag ("foo".data ++ '/' :: 'v' :: "1.2.3".data),
         .reportNotFound ("foo".data ++ '/' :: 'v' :: "1.2.3".data)] :=
  (claim_C8_no_build_no_polling _ _ _ _ rfl).1

/-- C9: in the manual fallback path (head ref did not match), a user-typed
tag that does not match `^([a-z-]+)\/v(\d.\d.\d)$` makes the step fail with
an uncaught error, with the package name and release version still unset
(only the release tag was stored before the raise). -/
theorem claim_C9_manual_fallback_error (headRef promptTag : List Char)
    (h1 : matchReleaseBranch headRef = none)
    (h2 : matchTagPattern promptTag = none) :
    determine_release_tag headRef promptTag {} =
      .error { package_name := none, release_version := none,
               release_tag := some promptTag } := by
  simp only [determine_release_tag, h1, determine_package_name_and_version, h2]

theorem claim_C9_witness :
    determine_release_tag "main".data "garbage".data {} =
      .error { package_name := none, release_version := none,
               release_tag := some "garbage".data } :=
  claim_C9_manual_fallback_error _ _ (by decide) (by decide)

/-- C10: the release version is interpolated into the changelog pattern
without escaping, so its dots match arbitrary characters: a changelog whose
header version text `1a2b3` agrees with the requested `1.2.3` only at the
digit positions still yields that section's body instead of the empty
string. -/
theorem claim_C10_unescaped_version_dots :
    get_release_notes "### 1a2b3 / 2020-01-01\nBody.\n".data "1.2.3".data
      = "Body.".data
    ∧ "Body.".data ≠ ([] : List Char)
    ∧ "1a2b3".data ≠ "1.2.3".data := by decide

lemma isDigit_ne_newline {c : Char} (h : isDigit c = true) : c ≠ '\n' := by
  intro he
  subst he
  exact absurd h (by decide)

lemma tagTail_eq_some {t v : List Char} (h : tagTail t = some v) :
    ∃ d1 c1 d2 c2 d3, t = ['/', 'v', d1, c1, d2, c2, d3] ∧ v = [d1, c1, d2, c2, d3]
      ∧ isDigit d1 = true ∧ isDigit d2 = true ∧ isDigit d3 = true
      ∧ c1 ≠ '\n' ∧ c2 ≠ '\n' := by
  unfold tagTail at h
  split at h
  · next d1 c1 d2 c2 d3 =>
    split at h
    · next hcond =>
      simp only [Bool.and_eq_true, Bool.not_eq_true', decide_eq_false_iff_not] at hcond
      exact ⟨d1, c1, d2, c2, d3, rfl, (Option.some.inj h).symm ▸ rfl,
        hcond.1.1.1.1, hcond.1.1.1.2, hcond.1.1.2, hcond.1.2, hcond.2⟩
    · exact absurd h (by simp)
  · exact absurd h (by simp)

lemma branchTail_eq_some {t v : List Char} (h : branchTail t = some v) :
    ∃ d1 d2 c d3, t = ['-', 'v', d1, '.', d2, c, d3] ∧ v = [d1, '.', d2, c, d3]
      ∧ isDigit d1 = true ∧ isDigit d2 = true ∧ isDigit d3 = true ∧ c ≠ '\n' := by
  unfold branchTail at h
  split at h
  · next d1 p d2 c d3 =>
    split at h
    · next hcond =>
      simp only [Bool.and_eq_true, Bool.not_eq_true', decide_eq_true_eq,
        decide_eq_false_iff_not] at hcond
      obtain ⟨⟨⟨⟨hdot, h1⟩, h2⟩, h3⟩, hc⟩ := hcond
      subst hdot
      exact ⟨d1, d2, c, d3, rfl, (Option.some.inj h).symm ▸ rfl, h1, h2, h3, hc⟩
    · exact absurd h (by simp)
  · exact absurd h (by simp)

lemma matchTagCore_eq_some {core pkg ver : List Char}
    (h : matchTagCore core = some (pkg, ver)) :
    core = pkg ++ '/' :: 'v' :: ver ∧ pkg ≠ [] ∧ pkg.all isLowerOrHyphen = true := by
  unfold matchTagCore at h
  split at h
  · next hlen =>
    split at h
    · next hall =>
      rw [Option.map_eq_some'] at h
      obtain ⟨v, hv, hfv⟩ := h
      injection hfv with htake hver
      obtain ⟨d1, c1, d2, c2, d3, ht, hveq, _⟩ := tagTail_eq_some hv
      have hverlist : ver = [d1, c1, d2, c2, d3] := hver.symm.trans hveq
      have hcore : core = pkg ++ '/' :: 'v' :: ver := by
        conv_lhs => rw [← List.take_append_drop (core.length - 7) core]
        rw [htake, ht, hverlist]
      refine ⟨hcore, ?_, htake ▸ hall⟩
      have hlength : pkg.length = core.length - 7 := by
        rw [← htake, List.length_take]
        exact min_eq_left (Nat.sub_le _ _)
      have hpos : 0 < pkg.length := by omega
      exact List.ne_nil_of_length_pos hpos
    · exact absurd h (by simp)
  · exact absurd h (by simp)

lemma matchTagCore_comp (pkg : List Char) (d1 c1 d2 c2 d3 : Char)
    (hp : pkg ≠ []) (hall : pkg.all isLowerOrHyphen = true)
    (h1 : isDigit d1 = true) (h2 : isDigit d2 = true) (h3 : isDigit d3 = true)
    (hc1 : c1 ≠ '\n') (hc2 : c2 ≠ '\n') :
    matchTagCore (pkg ++ '/' :: 'v' :: [d1, c1, d2, c2, d3])
      = some (pkg, [d1, c1, d2, c2, d3]) := by
  have hpos : 0 < pkg.length := List.length_pos.mpr hp
  have hlen : (pkg ++ '/' :: 'v' :: [d1, c1, d2, c2, d3]).length = pkg.length + 7 := by
    simp
  have e1 : (pkg ++ '/' :: 'v' :: [d1, c1, d2, c2, d3]).length - 7 = pkg.length := by
    omega
  unfold matchTagCore
  rw [e1, List.take_left, List.drop_left, if_pos (by omega), if_pos hall]
  simp [tagTail, h1, h2, h3, hc1, hc2]

lemma matchTagPattern_eq_some {s pkg ver : List Char}
    (h : matchTagPattern s = some (pkg, ver)) (hnl : '\n' ∉ s) :
    s = pkg ++ '/' :: 'v' :: ver ∧ pkg ≠ [] ∧ pkg.all isLowerOrHyphen = true := by
  unfold matchTagPattern at h
  have hne : ¬ (s.getLast? = some '\n') := by
    intro hg
    apply hnl
    have hd := List.dropLast_append_getLast? _ hg
    rw [← hd]
    simp
  rw [if_neg hne] at h
  exact matchTagCore_eq_some h

lemma matchTagPattern_comp (pkg : List Char) (d1 c1 d2 c2 d3 : Char)
    (hp : pkg ≠ []) (hall : pkg.all isLowerOrHyphen = true)
    (h1 : isDigit d1 = true) (h2 : isDigit d2 = true) (h3 : isDigit d3 = true)
    (hc1 : c1 ≠ '\n') (hc2 : c2 ≠ '\n') :
    matchTagPattern (pkg ++ '/' :: 'v' :: [d1, c1, d2, c2, d3])
      = some (pkg, [d1, c1, d2, c2, d3]) := by
  have hsplit : pkg ++ '/' :: 'v' :: [d1, c1, d2, c2, d3]
      = (pkg ++ ['/', 'v', d1, c1, d2, c2]) ++ [d3] := by simp
  have hlast : (pkg ++ '/' :: 'v' :: [d1, c1, d2, c2, d3]).getLast? = some d3 := by
    rw [hsplit, List.getLast?_concat]
  have hne : ¬ ((pkg ++ '/' :: 'v' :: [d1, c1, d2, c2, d3]).getLast? = some '\n') := by
    rw [hlast]
    intro he
    exact isDigit_ne_newline h3 (Option.some.inj he)
  unfold matchTagPattern
  rw [if_neg hne]
  exact matchTagCore_comp pkg d1 c1 d2 c2 d3 hp hall h1 h2 h3 hc1 hc2

lemma matchBranchCore_eq_some {core pkg ver : List Char}
    (h : matchBranchCore core = some (pkg, ver)) :
    core = pkg ++ '-' :: 'v' :: ver ∧ pkg ≠ [] ∧ pkg.all isLowerOrHyphen = true
      ∧ ∃ d1 d2 c d3, ver = [d1, '.', d2, c, d3] ∧ isDigit d1 = true
          ∧ isDigit d2 = true ∧ isDigit d3 = true ∧ c ≠ '\n' := by
  unfold matchBranchCore at h
  split at h
  · next hlen =>
    split at h
    · next hall =>
      rw [Option.map_eq_some'] at h
      obtain ⟨v, hv, hfv⟩ := h
      injection hfv with htake hver
      obtain ⟨d1, d2, c, d3, ht, hveq, h1, h2, h3, hc⟩ := branchTail_eq_some hv
      have hverlist : ver = [d1, '.', d2, c, d3] := hver.symm.trans hveq
      have hcore : core = pkg ++ '-' :: 'v' :: ver := by
        conv_lhs => rw [← List.take_append_drop (core.length - 7) core]
        rw [htake, ht, hverlist]
      have hlength : pkg.length = core.length - 7 := by
        rw [← htake, List.length_take]
        exact min_eq_left (Nat.sub_le _ _)
      have hpos : 0 < pkg.length := by omega
      exact ⟨hcore, List.ne_nil_of_length_pos hpos, htake ▸ hall,
        d1, d2, c, d3, hverlist, h1, h2, h3, hc⟩
    · exact absurd h (by simp)
  · exact absurd h (by simp)

lemma matchReleaseBranch_eq_some {s pkg ver : List Char}
    (h : matchReleaseBranch s = some (pkg, ver)) :
    pkg ≠ [] ∧ pkg.all isLowerOrHyphen = true
      ∧ (∃ d1 d2 c d3, ver = [d1, '.', d2, c, d3] ∧ isDigit d1 = true
          ∧ isDigit d2 = true ∧ isDigit d3 = true ∧ c ≠ '\n')
      ∧ (s = "release-".data ++ pkg ++ '-' :: 'v' :: ver
          ∨ s = "release-".data ++ pkg ++ '-' :: 'v' :: ver ++ ['\n']) := by
  unfold matchReleaseBranch at h
  split at h
  · next hpre =>
    have hs : s = "release-".data ++ s.drop 8 := by
      conv_lhs => rw [← List.take_append_drop 8 s]
      rw [hpre]
    split at h
    · next hg =>
      obtain ⟨hcore, hp, hall, hver⟩ := matchBranchCore_eq_some h
      have hrest : (s.drop 8).dropLast ++ ['\n'] = s.drop 8 :=
        List.dropLast_append_getLast? _ hg
      refine ⟨hp, hall, hver, Or.inr ?_⟩
      rw [hs, ← hrest, hcore]
      simp
    · next hg =>
      obtain ⟨hcore, hp, hall, hver⟩ := matchBranchCore_eq_some h
      refine ⟨hp, hall, hver, Or.inl ?_⟩
      rw [hs, hcore]
      simp
  · exact absurd h (by simp)

/-- C2: composing `<package>/v<version>` and re-deriving package and version
through the fallback pattern round-trips, for every package of lowercase
letters/hyphens and every version matching `\d.\d.\d` (digit, any non-newline
character, digit, any non-newline character, digit); and whenever
`determine_release_tag` completes normally — by either path, the user input of
the manual path being the newline-free line `click.prompt` returns — the
stored release tag equals the stored package name, then `/v`, then the stored
release version. -/
theorem claim_C2_tag_roundtrip_consistency :
    (∀ (pkg : List Char) (d1 c1 d2 c2 d3 : Char),
        pkg ≠ [] → pkg.all isLowerOrHyphen = true →
        isDigit d1 = true → isDigit d2 = true → isDigit d3 = true →
        c1 ≠ '\n' → c2 ≠ '\n' →
        matchTagPattern (pkg ++ '/' :: 'v' :: [d1, c1, d2, c2, d3])
          = some (pkg, [d1, c1, d2, c2, d3]))
    ∧ (∀ (headRef promptTag : List Char) (ctx ctx' : Context),
        '\n' ∉ promptTag →
        determine_release_tag headRef promptTag ctx = .ok ctx' →
        ∃ pkg ver, ctx'.package_name = some pkg ∧ ctx'.release_version = some ver
          ∧ ctx'.release_tag = some (pkg ++ '/' :: 'v' :: ver)) := by
  constructor
  · intro pkg d1 c1 d2 c2 d3 hp hall h1 h2 h3 hc1 hc2
    exact matchTagPattern_comp pkg d1 c1 d2 c2 d3 hp hall h1 h2 h3 hc1 hc2
  · intro headRef promptTag ctx ctx' hnl h
    unfold determine_release_tag at h
    split at h
    · next pkg ver _ =>
      refine ⟨pkg, ver, ?_, ?_, ?_⟩ <;> simp [← Except.ok.inj h]
    · unfold determine_package_name_and_version at h
      simp only at h
      split at h
      · next pkg ver hm =>
        obtain ⟨heq, -, -⟩ := matchTagPattern_eq_some hm hnl
        refine ⟨pkg, ver, ?_, ?_, ?_⟩ <;> simp [← Except.ok.inj h, heq]
      · exact absurd h (by simp)

theorem claim_C2_witness :
    matchTagPattern "foo-bar/v2.0.1".data = some ("foo-bar".data, "2.0.1".data) :=
  claim_C2_tag_roundtrip_consistency.1 "foo-bar".data '2' '.' '0' '.' '1'
    (by decide) (by decide) (by decide) (by decide) (by decide) (by decide) (by decide)

/-- C3 counterexample: with two candidate pull requests, the out-of-range
selection `0` does NOT fail — Python's negative indexing makes
`pulls[0 - 1]` the LAST candidate, which is stored. -/
theorem claim_C3_counterexample :
    determine_release_pr
        [⟨"release 1".data, 1, [], []⟩, ⟨"release 2".data, 2, [], []⟩] 0
      = some ⟨"release 2".data, 2, [], []⟩
    ∧ ¬ (1 ≤ (0 : Int)) := by decide

/-- C3 (amended): the PR-selection step fails exactly when the selection
exceeds the candidate count `n` or is at most `-n`; whenever it stores a pull
request, that pull request is one of the candidates (selections in `1-n..0`
wrap around and count from the end). -/
theorem claim_C3_amended (pulls : List PullRequest) (pull_idx : Int) :
    (determine_release_pr pulls pull_idx = none ↔
      ((determine_release_pr_candidates pulls).length : Int) < pull_idx
        ∨ pull_idx ≤ -((determine_release_pr_candidates pulls).length : Int))
    ∧ ∀ p, determine_release_pr pulls pull_idx = some p →
        p ∈ determine_release_pr_candidates pulls := by
  constructor
  · unfold determine_release_pr pyIndex
    split_ifs with h1 h2
    · simp only [true_iff]
      omega
    · rw [List.get?_eq_none]
      omega
    · rw [List.get?_eq_none]
      omega
  · intro p hp
    unfold determine_release_pr pyIndex at hp
    split_ifs at hp
    all_goals exact List.get?_mem hp

theorem claim_C3_amended_witness :
    (⟨"release 1".data, 1, [], []⟩ : PullRequest) ∈
      determine_release_pr_candidates
        [⟨"release 1".data, 1, [], []⟩, ⟨"release 2".data, 2, [], []⟩] :=
  (claim_C3_amended [⟨"release 1".data, 1, [], []⟩, ⟨"release 2".data, 2, [], []⟩] 1).2
    ⟨"release 1".data, 1, [], []⟩ (by decide)

/-- C4 counterexample: the head ref `release-a-v1.2x3` is accepted by the
automatic path (version `1.2x3` extracted, tag `a/v1.2x3` composed) although
its last two version components are not separated by a dot — the second
separator of `(\d\.\d.\d)` is an unescaped `.`. -/
theorem claim_C4_counterexample :
    matchReleaseBranch "release-a-v1.2x3".data = some ("a".data, "1.2x3".data)
    ∧ determine_release_tag "release-a-v1.2x3".data [] {}
        = .ok { package_name := some "a".data, release_version := some "1.2x3".data,
                release_tag := some "a/v1.2x3".data }
    ∧ specClaimedBranchForm "release-a-v1.2x3".data = false :=
  ⟨by decide, rfl, by decide⟩

/-- C4 (amended): every head ref accepted by the automatic path is
`release-<package>-v<d>.<d><c><d>` — `<package>` one or more lowercase
letters/hyphens, each `<d>` one digit, the FIRST separator a literal dot but
the SECOND any single non-newline character — optionally followed by one
trailing newline; the extracted package and version are the captured
components. -/
theorem claim_C4_amended (s pkg ver : List Char)
    (h : matchReleaseBranch s = some (pkg, ver)) :
    pkg ≠ [] ∧ pkg.all isLowerOrHyphen = true
      ∧ (∃ d1 d2 c d3, ver = [d1, '.', d2, c, d3] ∧ isDigit d1 = true
          ∧ isDigit d2 = true ∧ isDigit d3 = true ∧ c ≠ '\n')
      ∧ (s = "release-".data ++ pkg ++ '-' :: 'v' :: ver
          ∨ s = "release-".data ++ pkg ++ '-' :: 'v' :: ver ++ ['\n']) :=
  matchReleaseBranch_eq_some h

theorem claim_C4_amended_witness :
    "release-google-cloud-storage-v1.2.3".data
        = "release-".data ++ "google-cloud-storage".data ++ '-' :: 'v' :: "1.2.3".data
      ∨ "release-google-cloud-storage-v1.2.3".data
        = "release-".data ++ "google-cloud-storage".data ++ '-' :: 'v' :: "1.2.3".data
            ++ ['\n'] :=
  (claim_C4_amended "release-google-cloud-storage-v1.2.3".data
    "google-cloud-storage".data "1.2.3".data (by decide)).2.2.2

lemma headerHit_eq_none {ver s : List Char} (h : matchHeader ver s = none) :
    headerHit ver s = none := by
  unfold headerHit
  rw [h]

lemma searchNotes_eq_none (ver : List Char) :
    ∀ (s : List Char) (ls : Bool),
      (∀ i, i ≤ s.length → lineStartAtAux ls s i = true →
        matchHeader ver (s.drop i) = none) →
      searchNotes ver ls s = none := by
  intro s
  induction s with
  | nil =>
    intro ls h
    unfold searchNotes
    cases ls with
    | false => rfl
    | true =>
      rw [if_pos rfl]
      exact headerHit_eq_none (h 0 (by simp) rfl)
  | cons c rest ih =>
    intro ls h
    unfold searchNotes
    have hrec : searchNotes ver (c = '\n') rest = none := by
      apply ih
      intro i hi hls
      have := h (i + 1) (by simpa using Nat.succ_le_succ hi) (by
        simpa [lineStartAtAux] using hls)
      simpa using this
    cases ls with
    | false => simpa using hrec
    | true =>
      have h0 : matchHeader ver (c :: rest) = none := h 0 (by simp) rfl
      rw [if_pos rfl, headerHit_eq_none h0]
      exact hrec

/-- C7: when no changelog position that starts a line carries a section
header for the requested version, the release-notes step stores the empty
string (and completes normally). -/
theorem claim_C7_no_section_empty_notes (changelog ver : List Char)
    (h : ∀ i, i < changelog.length + 1 → lineStartAt changelog i = true →
        matchHeader ver (changelog.drop i) = none) :
    get_release_notes changelog ver = [] := by
  unfold get_release_notes
  rw [searchNotes_eq_none ver changelog true
    (fun i hi hls => h i (by omega) hls)]

theorem claim_C7_witness :
    get_release_notes "### 9.9.9 / 2020-01-01\nStuff.\n".data "1.2.3".data = [] :=
  claim_C7_no_section_empty_notes _ _ (by decide)
